import Mathlib

/-!
Verification of `beta/colabfold_alphafold.py` (ColabFold input-preparation
pipeline).  Each Python function relevant to the claims is shallowly embedded
as a Lean definition over `List Char` / `List Nat` data; external
collaborators (format parsers, the mmseqs2/jackhmmer search tools, the
hhfilter binary, `cf.trim_inputs`, `cf.cov_qid_filter`) are passed in as
oracle function arguments, matching the spec's "external interfaces" section.
File I/O (fasta/pickle files, directory cleanup) is modelled only where a
claim observes it (the jackhmmer result cache).
-/

namespace ColabFold

/-! ## Character-level string operations (`prep_inputs`, lines 132-143)

Python strings are modelled as `List Char`.  `str.upper` is modelled in its
ASCII fragment (the subsequent regex filter only keeps ASCII `A-Z:/`, so
non-ASCII case mappings are unobservable downstream). -/

/-- ASCII fragment of Python `str.upper` applied to one character. -/
def pyUpper (c : Char) : Char :=
  if 97 ≤ c.toNat ∧ c.toNat ≤ 122 then Char.ofNat (c.toNat - 32) else c

/-- Character class of the regex `[A-Z:/]` (codes 65-90, `:`, `/`); its
complement is deleted by `re.sub("[^A-Z:/]", "", ...)`, line 132. -/
def allowedChar (c : Char) : Bool :=
  (65 ≤ c.toNat && c.toNat ≤ 90) || c == ':' || c == '/'

/-- Separator characters `:` and `/`. -/
def isSep (c : Char) : Bool :=
  c == ':' || c == '/'

/-- `re.sub(c+, c, s)`: collapse each maximal run of the character `c` to a
single copy (lines 133, 134 and 348). -/
def collapse (c : Char) : List Char → List Char
  | [] => []
  | [a] => [a]
  | a :: b :: t =>
    if a = c ∧ b = c then collapse c (b :: t)
    else a :: collapse c (b :: t)

/-- `re.sub("^[:/]+", "", s)` (line 135): strip the leading run of separators. -/
def stripLeading (l : List Char) : List Char :=
  l.dropWhile isSep

/-- `re.sub("[:/]+$", "", s)` (line 136): strip the trailing run of separators. -/
def stripTrailing (l : List Char) : List Char :=
  (l.reverse.dropWhile isSep).reverse

/-- The sequence-normalization pipeline of `prep_inputs`, lines 132-136:
uppercase, delete characters outside `[A-Z:/]`, collapse repeated `:` runs,
collapse repeated `/` runs, strip leading and trailing separators. -/
def normalizeL (l : List Char) : List Char :=
  stripTrailing (stripLeading (collapse '/' (collapse ':' ((l.map pyUpper).filter allowedChar))))

/-- String-level wrapper of `normalizeL`. -/
def normalizeSeq (s : String) : String :=
  String.mk (normalizeL s.data)

/-- `noRun c l` holds when `l` contains no two adjacent occurrences of `c`;
this is the postcondition of `collapse c`. -/
def noRun (c : Char) : List Char → Prop
  | [] => True
  | [_] => True
  | a :: b :: t => ¬(a = c ∧ b = c) ∧ noRun c (b :: t)

/-! ## Homooligomer-string normalization (`prep_inputs`, lines 138-150) -/

/-- `re.sub("[:/]+", ":", h)` (line 138): replace each maximal run of
separators with a single `:`. -/
def collapseSeps : List Char → List Char
  | [] => []
  | [a] => if isSep a then [':'] else [a]
  | a :: b :: t =>
    if isSep a ∧ isSep b then collapseSeps (b :: t)
    else (if isSep a then ':' else a) :: collapseSeps (b :: t)

/-- Lines 138-143: collapse separator runs to `:`, strip leading/trailing
separators, default to `"1"` when empty, then delete everything outside
`[0-9:]`. -/
def cleanHom (l : List Char) : List Char :=
  let l1 := stripTrailing (stripLeading (collapseSeps l))
  let l2 := if l1 = [] then ['1'] else l1
  l2.filter (fun c => c.isDigit || c == ':')

/-- Python `s.split(":")`: split on every `:`; the empty string yields one
empty part. -/
def splitColon : List Char → List (List Char)
  | [] => [[]]
  | c :: rest =>
    let r := splitColon rest
    if c = ':' then [] :: r
    else
      match r with
      | [] => [[c]]
      | g :: gs => (c :: g) :: gs

/-- Python `int(s)` on the digit/colon-filtered segments: raises `ValueError`
(modelled as `none`) on the empty string or on any non-digit character. -/
def parseNatDigits (l : List Char) : Option Nat :=
  if l ≠ [] ∧ l.all Char.isDigit then
    some (l.foldl (fun acc c => acc * 10 + (c.toNat - 48)) 0)
  else none

/-- Line 150: `[int(h) for h in homooligomer.split(":")]` on the cleaned
homooligomer string; `none` models the `ValueError` raised by `int("")`. -/
def homooligomersOf (homooligomer : String) : Option (List Nat) :=
  (splitColon (cleanHom homooligomer.data)).mapM parseNatDigits

/-- The `while len > len: append(1)` loop of lines 160-161 followed by the
truncation of line 162, expressed as pad-with-1 then take. -/
def padOnes (hs : List Nat) (n : Nat) : List Nat :=
  hs ++ List.replicate (n - hs.length) 1

/-- The homooligomer reconciliation of `prep_inputs`, lines 153-162: when the
counts differ, broadcast a single value, otherwise pad with 1 and truncate. -/
def adjust (nseqs : Nat) (hs : List Nat) : List Nat :=
  if nseqs = hs.length then hs
  else if hs.length = 1 then List.replicate nseqs (hs.headD 1)
  else (padOnes hs nseqs).take nseqs

/-- Python `":".join(...)` over character-list strings. -/
def joinColon (ls : List (List Char)) : List Char :=
  (ls.intersperse [':']).flatten

/-- Python `s*h`: the chain `s` repeated `h` times. -/
def repChain (s : List Char) (h : Nat) : List Char :=
  (List.replicate h s).flatten

/-- The job-state dictionary `I` built by `prep_inputs` (lines 146-167) and
threaded through `prep_msa` / `prep_filter`.  The `chains` key only appears
in Python after `cf.trim_inputs` runs; it is modelled as an always-present
field that `prep_inputs` initializes to `[]`. -/
structure JobI where
  ori_sequence : List Char
  sequence : List Char
  seqs : List (List Char)
  homooligomer : List Char
  homooligomers : List Nat
  full_sequence : List Char
  lengths : List Nat
  msas : List (List (List Char))
  deletion_matrices : List (List (List Nat))
  chains : List Nat
deriving DecidableEq

/-- `prep_inputs` (lines 130-187) restricted to its state computation, with
the default `verbose=False` (the verbose-only branches, including the broken
warning of line 179, are modelled separately in
`prep_inputs_length_warning`); job-name sanitization and directory I/O
(lines 137, 170-176) have no effect on the returned state and are omitted.
`none` models the `ValueError` raised by `int` on a malformed oligomer
string. -/
def prep_inputs (sequence homooligomer : String) : Option JobI :=
  let ori := normalizeL sequence.data
  match homooligomersOf homooligomer with
  | none => none
  | some hs =>
    let seqs := splitColon (ori.filter (fun c => c != '/'))
    let homs := adjust seqs.length hs
    some
      { ori_sequence := ori
        sequence := ori.filter (fun c => !(c == '/' || c == ':'))
        seqs := seqs
        homooligomer :=
          if seqs.length = hs.length then cleanHom homooligomer.data
          else joinColon (homs.map (fun h => (Nat.repr h).data))
        homooligomers := homs
        full_sequence := ((seqs.zip homs).map (fun p => repChain p.1 p.2)).flatten
        lengths := seqs.map List.length
        msas := []
        deletion_matrices := []
        chains := [] }

/-- The oversized-length check of `prep_inputs`, lines 178-180.  The branch
is taken when `verbose` is set and the full sequence exceeds 1400 residues;
its first print interpolates the name `full_sequence`, which is not defined
in the function (the dict entry is `I["full_sequence"]`), so Python raises
`NameError` instead of printing the warning.  `Except.ok` carries the list
of printed warning lines. -/
def prep_inputs_length_warning (full_sequence_len : Nat) (verbose : Bool) :
    Except String (List String) :=
  if verbose ∧ 1400 < full_sequence_len then
    Except.error "NameError: name full_sequence is not defined"
  else Except.ok []

/-! ## Padding and track construction (`prep_msa`, lines 228-237, 263-271,
331-337) -/

/-- `_blank_seq` (line 228): one all-gap string per chain. -/
def blank_seq (lengths : List Nat) : List (List Char) :=
  lengths.map (fun L => List.replicate L '-')

/-- `_blank_mtx` (line 229): one all-zero deletion row per chain. -/
def blank_mtx (lengths : List Nat) : List (List Nat) :=
  lengths.map (fun L => List.replicate L 0)

/-- `_pad(n, val, "seq")` with a single chain index (lines 230-237): place
`v` at chain slot `n` of the blank row and concatenate. -/
def pad_seq_one (lengths : List Nat) (n : Nat) (v : List Char) : List Char :=
  ((blank_seq lengths).set n v).flatten

/-- `_pad(n, val, "mtx")` with a single chain index. -/
def pad_mtx_one (lengths : List Nat) (n : Nat) (v : List Nat) : List Nat :=
  ((blank_mtx lengths).set n v).flatten

/-- `_pad([a,b], [va,vb], "seq")` (list-index form, used by the pairing
branch, line 334). -/
def pad_seq_two (lengths : List Nat) (a b : Nat) (va vb : List Char) : List Char :=
  (((blank_seq lengths).set a va).set b vb).flatten

/-- `_pad([a,b], [va,vb], "mtx")` (line 335). -/
def pad_mtx_two (lengths : List Nat) (a b : Nat) (va vb : List Nat) : List Nat :=
  (((blank_mtx lengths).set a va).set b vb).flatten

/-- One unpaired per-chain track (lines 263-271): the query row followed by
each backend row padded into chain slot `n`.  `rows` carries the zipped
`(msa row, deletion row)` pairs from the backend. -/
def buildUnpairedTrack (sequence : List Char) (lengths : List Nat) (n : Nat)
    (rows : List (List Char × List Nat)) :
    List (List Char) × List (List Nat) :=
  (sequence :: rows.map (fun r => pad_seq_one lengths n r.1),
   List.replicate sequence.length 0 :: rows.map (fun r => pad_mtx_one lengths n r.2))

/-- One stitched row for a chain pair: `((seq_a, seq_b), (mtx_a, mtx_b))`. -/
abbrev StitchRow := (List Char × List Char) × (List Nat × List Nat)

/-- The paired track appended at lines 331-337: the query row followed by
every stitched row padded into chain slots `a` and `b`. -/
def buildPairedTrack (sequence : List Char) (lengths : List Nat) (a b : Nat)
    (rows : List StitchRow) :
    List (List Char) × List (List Nat) :=
  (sequence :: rows.map (fun r => pad_seq_two lengths a b r.1.1 r.1.2),
   List.replicate sequence.length 0 :: rows.map (fun r => pad_mtx_two lengths a b r.2.1 r.2.2))

/-- Lines 318-337 for one stitched chain pair: run the external hhfilter on
the concatenated row strings, read back the surviving indices `ok` (first
component of the hhfilter oracle result is used only for its length, the
diagnostic count of line 329), then — independently of `ok` — append the
full stitched track when any stitched row exists.  Returns the optional
track together with `len(ok)`. -/
def stitchTracks (sequence : List Char) (lengths : List Nat) (a b : Nat)
    (rows : List StitchRow) (hhfilter : List (List Char) → List Nat) :
    Option (List (List Char) × List (List Nat)) × Nat :=
  let ok := hhfilter (rows.map (fun r => r.1.1 ++ r.1.2))
  (if 0 < rows.length then some (buildPairedTrack sequence lengths a b rows) else none,
   ok.length)

/-! ## `prep_msa` (lines 189-344) -/

/-- The `msa_method` argument of `prep_msa`. -/
inductive MsaMethod
  | mmseqs2
  | jackhmmer
  | single_sequence
  | precomputed
deriving DecidableEq

/-- The `pair_mode` argument of `prep_msa`. -/
inductive PairMode
  | unpaired
  | unpaired_paired
  | paired
deriving DecidableEq

/-- Python `"unpaired" in pair_mode` (substring test on the mode string). -/
def PairMode.hasUnpaired : PairMode → Bool
  | PairMode.unpaired => true
  | PairMode.unpaired_paired => true
  | PairMode.paired => false

/-- Python `pair_mode == "paired" or pair_mode == "unpaired+paired"`. -/
def PairMode.hasPaired : PairMode → Bool
  | PairMode.paired => true
  | PairMode.unpaired_paired => true
  | PairMode.unpaired => false

/-- External collaborators of `prep_msa`, bundled as oracles: the uploaded
custom MSA after `parse_a3m` (lines 195-211), the uploaded precomputed pickle
(lines 215-220), the per-chain backend rows already zipped (lines 247-268),
the pairability test `len(_msa) > 1` (line 303), the stitched rows produced
by `pairmsa._stitch` (line 315), and the hhfilter survivor-index reader
(lines 321-326). -/
structure MsaOracle where
  custom_msa : List (List Char)
  custom_mtx : List (List Nat)
  uploaded_msas : List (List (List Char))
  uploaded_mtxs : List (List (List Nat))
  unpaired : Nat → List (List Char × List Nat)
  pairable : Nat → Bool
  pairRows : Nat → Nat → List StitchRow
  hhfilter : List (List Char) → List Nat

/-- All chain pairs `(a, b)` with `a < b < n`, in the nested-loop order of
lines 310-312. -/
def allPairs (n : Nat) : List (Nat × Nat) :=
  (List.range n).flatMap (fun a => (List.range' (a + 1) (n - (a + 1))).map (fun b => (a, b)))

/-- `prep_msa` (lines 189-344) as a state transformer.  It first clears
`I["msas"]` and `I["deletion_matrices"]` (lines 192-193), optionally appends
the uploaded custom MSA with the length check of lines 212-213 (whose failure
raises `ValueError`, modelled as `Except.error`), then dispatches on
`msa_method`; the mmseqs2/jackhmmer branches append one padded track per
chain and, when pairing is requested and there are at least two chains, one
stitched track per successfully paired chain pair.  The trailing pickle dump
(lines 342-343) is I/O without effect on the returned state. -/
def prep_msa (I : JobI) (msa_method : MsaMethod) (add_custom_msa : Bool)
    (pair_mode : PairMode) (o : MsaOracle) : Except String JobI :=
  let I0 : JobI := { I with msas := [], deletion_matrices := [] }
  let custom : Except String JobI :=
    if add_custom_msa then
      let I1 : JobI :=
        { I0 with msas := I0.msas ++ [o.custom_msa],
                  deletion_matrices := I0.deletion_matrices ++ [o.custom_mtx] }
      if ((I1.msas.getD 0 []).getD 0 []).length = I1.sequence.length then Except.ok I1
      else Except.error "ERROR: the length of msa does not match input sequence"
    else Except.ok I0
  match custom with
  | Except.error e => Except.error e
  | Except.ok I1 =>
    match msa_method with
    | MsaMethod.precomputed =>
      Except.ok { I1 with msas := o.uploaded_msas, deletion_matrices := o.uploaded_mtxs }
    | MsaMethod.single_sequence =>
      Except.ok
        (if I1.msas.length = 0 then
          { I1 with msas := [[I1.sequence]],
                    deletion_matrices := [[List.replicate I1.sequence.length 0]] }
        else I1)
    | _ =>
      let I2 :=
        if I1.seqs.length = 1 ∨ pair_mode.hasUnpaired then
          (List.range I1.seqs.length).foldl (fun J n =>
            let t := buildUnpairedTrack J.sequence J.lengths n (o.unpaired n)
            { J with msas := J.msas ++ [t.1],
                     deletion_matrices := J.deletion_matrices ++ [t.2] }) I1
        else I1
      let I3 :=
        if 1 < I1.seqs.length ∧ pair_mode.hasPaired then
          (allPairs I1.seqs.length).foldl (fun J p =>
            if o.pairable p.1 && o.pairable p.2 then
              match stitchTracks J.sequence J.lengths p.1 p.2 (o.pairRows p.1 p.2) o.hhfilter with
              | (some t, _) =>
                { J with msas := J.msas ++ [t.1],
                         deletion_matrices := J.deletion_matrices ++ [t.2] }
              | (none, _) => J
            else J) I2
        else I2
      Except.ok I3

/-! ## `run_jackhmmer` hit assembly (lines 97-123) -/

/-- One jackhmmer hit: aligned sequence, deletion row, target name and the
e-value looked up in the tblout table (modelled as a rational, ordered as
Python orders its floats). -/
structure Hit where
  seq : List Char
  del : List Nat
  name : String
  ev : ℚ
deriving DecidableEq

/-- The sort key relation of line 112, `key=lambda x: x[3]`. -/
def hitLE (a b : Hit) : Prop := a.ev ≤ b.ev

instance : DecidableRel hitLE := fun a b => inferInstanceAs (Decidable (a.ev ≤ b.ev))

instance : IsTotal Hit hitLE := ⟨fun a b => le_total a.ev b.ev⟩

instance : IsTrans Hit hitLE := ⟨fun _ _ _ h1 h2 => le_trans h1 h2⟩

/-- Lines 101-111: pool one database's hits over its streamed chunks,
dropping hits named `query` from every chunk after the first. -/
def gatherChunks (chunks : List (List Hit)) : List Hit :=
  match chunks with
  | [] => []
  | c0 :: rest => c0 ++ (rest.map (fun ch => ch.filter (fun h => h.name != "query"))).flatten

/-- Line 97: `mgnify_max_hits = 501`. -/
def mgnify_max_hits : Nat := 501

/-- Lines 112-118 for one database: stable-sort the pooled hits by ascending
e-value (Python `sorted` is stable; `List.insertionSort` is the stable sort
with the same output), then truncate to `mgnify_max_hits` when the database
is `mgnify`.  `none` models the `ValueError` that `zip(*sorted_by_evalue)`
raises on an empty hit list (line 113). -/
def run_jackhmmer_db (db_name : String) (chunks : List (List Hit)) : Option (List Hit) :=
  let unsorted_results := gatherChunks chunks
  if unsorted_results = [] then none
  else
    let sorted_by_evalue := List.insertionSort hitLE unsorted_results
    some (if db_name = "mgnify" then sorted_by_evalue.take mgnify_max_hits else sorted_by_evalue)

/-! ## `run_jackhmmer` cache behaviour (lines 34-40) -/

/-- The pickled per-chain cache bundle (`msas`, `deletion_matrices`,
`names`). -/
structure Bundle where
  msas : List (List (List Char))
  deletion_matrices : List (List (List Nat))
  names : List (List String)
deriving DecidableEq

/-- The cache dispatch of `run_jackhmmer`, lines 34-41 and 125-128.  The
cache file state is `none` when `os.path.isfile` is false, `some (some b)`
when the file exists and `pickle.load` succeeds with bundle `b`, and
`some none` when the file exists but deserialization fails.  In the source
the load at line 36 is not guarded by any `try`, so a corrupt file raises
(`Except.error`); only a missing file reaches the fresh network search,
whose result is the `fresh` argument. -/
def run_jackhmmer_cache (cacheFile : Option (Option Bundle)) (fresh : Bundle) :
    Except String Bundle :=
  match cacheFile with
  | some (some b) => Except.ok b
  | some none => Except.error "UnpicklingError"
  | none => Except.ok fresh

/-! ## `prep_filter` (lines 346-372) -/

/-- The trim-string normalization of lines 347-350: uppercase, keep only
`[0-9A-Z,-]`, collapse comma runs, strip leading/trailing commas. -/
def allowedTrimChar (c : Char) : Bool :=
  c.isDigit || (65 ≤ c.toNat && c.toNat ≤ 90) || c == ',' || c == '-'

/-- Lines 347-350. -/
def normalizeTrim (t : String) : List Char :=
  let l1 := collapse ',' ((t.data.map pyUpper).filter allowedTrimChar)
  let l2 := l1.dropWhile (fun c => c == ',')
  (l2.reverse.dropWhile (fun c => c == ',')).reverse

/-- The dictionary returned by the external `cf.trim_inputs` (the keys
`prep_filter` reads back at lines 355-358). -/
structure TrimOut where
  msas : List (List (List Char))
  deletion_matrices : List (List (List Nat))
  ori_sequence : List Char
  chains : List Nat

/-- `prep_filter` (lines 346-372).  The external tools `cf.trim_inputs` and
`cf.cov_qid_filter` are oracle arguments (the `cov/100`, `qid/100` rescaling
is absorbed into the oracle).  When any transform is requested the function
works on `mod_I = dict(I)`, a copy, modelled by functional record update;
when none is requested it returns the original `I` (Python reference
equality). -/
def prep_filter (I : JobI) (trim : String) (trim_inverse : Bool) (cov qid : Nat)
    (trim_inputs :
      List Char → List (List (List Char)) → List (List (List Nat)) → List Char → Bool → TrimOut)
    (cov_qid_filter :
      List (List (List Char)) → List (List (List Nat)) → List Char → Nat → Nat →
        List (List (List Char)) × List (List (List Nat))) : JobI :=
  let t := normalizeTrim trim
  if t ≠ [] ∨ 0 < cov ∨ 0 < qid then
    let mod_I := I
    let mod_I :=
      if t ≠ [] then
        let r := trim_inputs t mod_I.msas mod_I.deletion_matrices mod_I.ori_sequence trim_inverse
        let m1 : JobI :=
          { mod_I with msas := r.msas, deletion_matrices := r.deletion_matrices,
                       ori_sequence := r.ori_sequence, chains := r.chains }
        let homs := r.chains.map (fun c => m1.homooligomers.getD c 0)
        let sequence := m1.ori_sequence.filter (fun c => !(c == '/' || c == ':'))
        let seqs := splitColon (m1.ori_sequence.filter (fun c => c != '/'))
        { m1 with homooligomers := homs, sequence := sequence, seqs := seqs,
                  full_sequence := ((seqs.zip homs).map (fun p => repChain p.1 p.2)).flatten }
      else mod_I
    if 0 < cov ∨ 0 < qid then
      let pr := cov_qid_filter mod_I.msas mod_I.deletion_matrices mod_I.ori_sequence cov qid
      { mod_I with msas := pr.1, deletion_matrices := pr.2 }
    else mod_I
  else I

/-! ## `do_subsample_msa` (lines 385-402) -/

/-- The feature dict fields read or written by `do_subsample_msa`; rows are
modelled as integer lists (the residue encoding is irrelevant to the
claims). -/
structure Feats where
  msa : List (List Nat)
  deletion_matrix_int : List (List Nat)
  num_alignments : List Nat
  residue_index : List Nat
deriving DecidableEq

/-- `do_subsample_msa` (lines 385-402).  `perm` stands for
`np.random.permutation(np.arange(1, N))` at the given seed; `int(3E7/L)`
equals Nat division `30000000 / L` for every sequence length the float
quotient cannot cross an integer (the ulp at 3e7 is far below 1/L), and
`L = 0` raises `ZeroDivisionError` in Python, so callers assume `0 < L`.
Row selection `F["msa"][idx]` is modelled by `List.getD`. -/
def do_subsample_msa (F : Feats) (perm : List Nat) : Feats :=
  let N := F.msa.length
  let L := F.residue_index.length
  let N' := 30000000 / L
  if N' < N then
    let idx := ((0 : Nat) :: perm).take N'
    { msa := idx.map (fun i => F.msa.getD i []),
      deletion_matrix_int := idx.map (fun i => F.deletion_matrix_int.getD i []),
      num_alignments := F.num_alignments.map (fun _ => N'),
      residue_index := F.residue_index }
  else F

/-! ## Concrete inputs used by witnesses and counterexamples -/

/-- The job state `prep_inputs "ACD:EF" "2"` evaluates to. -/
def Jw : JobI :=
  { ori_sequence := "ACD:EF".data
    sequence := "ACDEF".data
    seqs := ["ACD".data, "EF".data]
    homooligomer := "2:2".data
    homooligomers := [2, 2]
    full_sequence := "ACDACDEFEF".data
    lengths := [3, 2]
    msas := []
    deletion_matrices := []
    chains := [] }

/-- A feature dict with one MSA row over a sequence of length `3*10^7 + 1`,
so the subsampling budget `int(3E7/L)` is `0`. -/
def FeatsHuge : Feats :=
  { msa := [[7]]
    deletion_matrix_int := [[0]]
    num_alignments := [1]
    residue_index := List.replicate 30000001 0 }

/-- A feature dict with five MSA rows over a sequence of length `10^7`, so
the subsampling budget is `3`. -/
def FeatsW : Feats :=
  { msa := [[0], [1], [2], [3], [4]]
    deletion_matrix_int := [[0], [10], [20], [30], [40]]
    num_alignments := [5]
    residue_index := List.replicate 10000000 0 }

/-- A concrete cache bundle for the `run_jackhmmer` cache theorems. -/
def BundleW : Bundle :=
  { msas := [[['A', 'C']]]
    deletion_matrices := [[[0, 0]]]
    names := [["query"]] }

/-- A second, distinct bundle standing for the fresh network result. -/
def BundleFresh : Bundle :=
  { msas := [[['D', 'E']]]
    deletion_matrices := [[[1, 0]]]
    names := [["hit1"]] }

/-- A tiny job state for the `prep_filter` and `prep_msa` witnesses. -/
def Iw : JobI :=
  { ori_sequence := "AB".data
    sequence := "AB".data
    seqs := ["AB".data]
    homooligomer := "1".data
    homooligomers := [1]
    full_sequence := "AB".data
    lengths := [2]
    msas := [[['A', 'B']]]
    deletion_matrices := [[[0, 0]]]
    chains := [] }

end ColabFold

namespace ColabFold

/-! ## Helper lemmas about `collapse`, `noRun` and `dropWhile` -/

theorem noRun_cons_iff (c x : Char) (xs : List Char) :
    noRun c (x :: xs) ↔
      (∀ y, xs.head? = some y → ¬(x = c ∧ y = c)) ∧ noRun c xs := by
  cases xs with
  | nil => simp [noRun]
  | cons b t => simp [noRun]

theorem noRun_tail {c x : Char} {xs : List Char} (h : noRun c (x :: xs)) :
    noRun c xs :=
  ((noRun_cons_iff c x xs).mp h).2

theorem collapse_head? (c : Char) :
    ∀ l : List Char, (collapse c l).head? = l.head? := by
  intro l
  induction l with
  | nil => rfl
  | cons a t ih =>
    cases t with
    | nil => rfl
    | cons b u =>
      by_cases h : a = c ∧ b = c
      · have hc : collapse c (a :: b :: u) = collapse c (b :: u) := by
          simp [collapse, h]
        rw [hc, ih]
        simp [h.1, h.2]
      · simp [collapse, h]

theorem noRun_collapse_self (c : Char) :
    ∀ l : List Char, noRun c (collapse c l) := by
  intro l
  induction l with
  | nil => exact trivial
  | cons a t ih =>
    cases t with
    | nil => exact trivial
    | cons b u =>
      by_cases h : a = c ∧ b = c
      · have hc : collapse c (a :: b :: u) = collapse c (b :: u) := by
          simp [collapse, h]
        rw [hc]; exact ih
      · have hc : collapse c (a :: b :: u) = a :: collapse c (b :: u) := by
          simp [collapse, h]
        rw [hc, noRun_cons_iff]
        refine ⟨?_, ih⟩
        intro y hy
        rw [collapse_head? c (b :: u)] at hy
        simp at hy
        subst hy
        exact h

theorem collapse_eq_self_of_noRun (c : Char) :
    ∀ l : List Char, noRun c l → collapse c l = l := by
  intro l
  induction l with
  | nil => intro _; rfl
  | cons a t ih =>
    cases t with
    | nil => intro _; rfl
    | cons b u =>
      intro h
      rcases h with ⟨hab, htail⟩
      have hc : collapse c (a :: b :: u) = a :: collapse c (b :: u) := by
        simp [collapse, hab]
      rw [hc, ih htail]

theorem noRun_collapse_other {c d : Char} :
    ∀ l : List Char, noRun d l → noRun d (collapse c l) := by
  intro l
  induction l with
  | nil => intro _; exact trivial
  | cons a t ih =>
    cases t with
    | nil => intro _; exact trivial
    | cons b u =>
      intro h
      rcases h with ⟨hab, htail⟩
      by_cases hc : a = c ∧ b = c
      · have hstep : collapse c (a :: b :: u) = collapse c (b :: u) := by
          simp [collapse, hc]
        rw [hstep]; exact ih htail
      · have hstep : collapse c (a :: b :: u) = a :: collapse c (b :: u) := by
          simp [collapse, hc]
        rw [hstep, noRun_cons_iff]
        refine ⟨?_, ih htail⟩
        intro y hy
        rw [collapse_head? c (b :: u)] at hy
        simp at hy
        subst hy
        exact hab

theorem mem_collapse {c x : Char} :
    ∀ l : List Char, x ∈ collapse c l → x ∈ l := by
  intro l
  induction l with
  | nil => intro h; exact h
  | cons a t ih =>
    cases t with
    | nil => intro h; exact h
    | cons b u =>
      intro h
      by_cases hc : a = c ∧ b = c
      · rw [show collapse c (a :: b :: u) = collapse c (b :: u) by simp [collapse, hc]] at h
        exact List.mem_cons_of_mem a (ih h)
      · rw [show collapse c (a :: b :: u) = a :: collapse c (b :: u) by simp [collapse, hc]] at h
        rcases List.mem_cons.mp h with h' | h'
        · exact h' ▸ List.mem_cons_self a _
        · exact List.mem_cons_of_mem a (ih h')

theorem noRun_append_left {c : Char} :
    ∀ l1 l2 : List Char, noRun c (l1 ++ l2) → noRun c l1 := by
  intro l1
  induction l1 with
  | nil => intro _ _; exact trivial
  | cons a t ih =>
    intro l2 h
    rw [List.cons_append, noRun_cons_iff] at h
    rw [noRun_cons_iff]
    refine ⟨?_, ih l2 h.2⟩
    intro y hy
    apply h.1
    cases t with
    | nil => simp at hy
    | cons x u => simpa using hy

theorem noRun_append_right {c : Char} :
    ∀ l1 l2 : List Char, noRun c (l1 ++ l2) → noRun c l2 := by
  intro l1
  induction l1 with
  | nil => intro l2 h; exact h
  | cons a t ih =>
    intro l2 h
    rw [List.cons_append] at h
    exact ih l2 (noRun_tail h)

theorem head?_dropWhile_false (p : Char → Bool) :
    ∀ (l : List Char) (y : Char), (l.dropWhile p).head? = some y → p y = false := by
  intro l
  induction l with
  | nil => intro y hy; simp at hy
  | cons a t ih =>
    intro y hy
    by_cases hp : p a
    · rw [List.dropWhile_cons, if_pos hp] at hy
      exact ih y hy
    · rw [List.dropWhile_cons, if_neg hp] at hy
      simp at hy
      subst hy
      exact Bool.eq_false_iff.mpr hp

theorem dropWhile_idem (p : Char → Bool) (l : List Char) :
    (l.dropWhile p).dropWhile p = l.dropWhile p := by
  cases h : l.dropWhile p with
  | nil => rfl
  | cons y t =>
    have hy : p y = false := head?_dropWhile_false p l y (by rw [h]; rfl)
    rw [List.dropWhile_cons, if_neg (by simp [hy])]

theorem exists_append_dropWhile (p : Char → Bool) (l : List Char) :
    ∃ u, l = u ++ l.dropWhile p :=
  ⟨l.takeWhile p, (List.takeWhile_append_dropWhile p l).symm⟩

theorem exists_rdrop_append (p : Char → Bool) (l : List Char) :
    ∃ u, l = (l.reverse.dropWhile p).reverse ++ u := by
  refine ⟨(l.reverse.takeWhile p).reverse, ?_⟩
  conv_lhs => rw [← List.reverse_reverse l,
    ← List.takeWhile_append_dropWhile p l.reverse]
  rw [List.reverse_append]

end ColabFold

namespace ColabFold

/-! ## Idempotence of the sequence normalization (claim C9) -/

theorem pyUpper_allowed {c : Char} (h : allowedChar c = true) : pyUpper c = c := by
  unfold allowedChar at h
  simp only [Bool.or_eq_true, Bool.and_eq_true, decide_eq_true_eq, beq_iff_eq] at h
  unfold pyUpper
  rcases h with (⟨h1, h2⟩ | h) | h
  · rw [if_neg]
    intro hcontra
    omega
  · subst h; decide
  · subst h; decide

theorem mem_normalizeL_allowed {x : Char} (l : List Char)
    (hx : x ∈ normalizeL l) : allowedChar x = true := by
  unfold normalizeL stripTrailing stripLeading at hx
  set l3 := collapse '/' (collapse ':' ((l.map pyUpper).filter allowedChar)) with hl3
  obtain ⟨u, hu⟩ := exists_rdrop_append isSep (l3.dropWhile isSep)
  have hx4 : x ∈ l3.dropWhile isSep := by
    rw [hu]
    exact List.mem_append_left _ hx
  obtain ⟨v, hv⟩ := exists_append_dropWhile isSep l3
  have hx3 : x ∈ l3 := by
    rw [hv]
    exact List.mem_append_right _ hx4
  have hx2 : x ∈ collapse ':' ((l.map pyUpper).filter allowedChar) :=
    mem_collapse _ hx3
  have hx1 : x ∈ (l.map pyUpper).filter allowedChar := mem_collapse _ hx2
  exact List.of_mem_filter hx1

theorem noRun_normalizeL_colon (l : List Char) : noRun ':' (normalizeL l) := by
  unfold normalizeL stripTrailing stripLeading
  set l2 := collapse ':' ((l.map pyUpper).filter allowedChar) with hl2
  have h2 : noRun ':' l2 := noRun_collapse_self ':' _
  have h3 : noRun ':' (collapse '/' l2) := noRun_collapse_other _ h2
  obtain ⟨v, hv⟩ := exists_append_dropWhile isSep (collapse '/' l2)
  have h4 : noRun ':' ((collapse '/' l2).dropWhile isSep) :=
    noRun_append_right v _ (hv ▸ h3)
  obtain ⟨u, hu⟩ := exists_rdrop_append isSep ((collapse '/' l2).dropWhile isSep)
  exact noRun_append_left _ u (hu ▸ h4)

theorem noRun_normalizeL_slash (l : List Char) : noRun '/' (normalizeL l) := by
  unfold normalizeL stripTrailing stripLeading
  set l3 := collapse '/' (collapse ':' ((l.map pyUpper).filter allowedChar)) with hl3
  have h3 : noRun '/' l3 := noRun_collapse_self '/' _
  obtain ⟨v, hv⟩ := exists_append_dropWhile isSep l3
  have h4 : noRun '/' (l3.dropWhile isSep) :=
    noRun_append_right v _ (hv ▸ h3)
  obtain ⟨u, hu⟩ := exists_rdrop_append isSep (l3.dropWhile isSep)
  exact noRun_append_left _ u (hu ▸ h4)

theorem clean1_normalizeL (l : List Char) :
    ((normalizeL l).map pyUpper).filter allowedChar = normalizeL l := by
  have hmap : (normalizeL l).map pyUpper = normalizeL l := by
    conv_rhs => rw [← List.map_id (normalizeL l)]
    exact List.map_congr_left (fun a ha => pyUpper_allowed (mem_normalizeL_allowed l ha))
  rw [hmap]
  exact List.filter_eq_self.mpr (fun a ha => mem_normalizeL_allowed l ha)

theorem stripLeading_normalizeL (l : List Char) :
    stripLeading (normalizeL l) = normalizeL l := by
  cases h5 : normalizeL l with
  | nil => rfl
  | cons y t =>
    have hyhead : ((collapse '/' (collapse ':' ((l.map pyUpper).filter allowedChar))).dropWhile
        isSep).head? = some y := by
      unfold normalizeL stripTrailing stripLeading at h5
      set l4 := (collapse '/' (collapse ':' ((l.map pyUpper).filter allowedChar))).dropWhile isSep
        with hl4
      obtain ⟨u, hu⟩ := exists_rdrop_append isSep l4
      rw [hu]
      rw [show (l4.reverse.dropWhile isSep).reverse = y :: t from h5]
      rfl
    have hy : isSep y = false := head?_dropWhile_false isSep _ y hyhead
    unfold stripLeading
    rw [List.dropWhile_cons, if_neg (by simp [hy])]

theorem stripTrailing_normalizeL (l : List Char) :
    stripTrailing (normalizeL l) = normalizeL l := by
  have hrev : (normalizeL l).reverse =
      (stripLeading (collapse '/' (collapse ':'
        ((l.map pyUpper).filter allowedChar)))).reverse.dropWhile isSep := by
    unfold normalizeL stripTrailing
    rw [List.reverse_reverse]
  unfold stripTrailing
  rw [hrev, dropWhile_idem, ← hrev]
  unfold normalizeL stripTrailing
  rw [List.reverse_reverse]

theorem normalizeL_idem (l : List Char) :
    normalizeL (normalizeL l) = normalizeL l := by
  conv_lhs => rw [normalizeL]
  rw [clean1_normalizeL,
    collapse_eq_self_of_noRun ':' _ (noRun_normalizeL_colon l),
    collapse_eq_self_of_noRun '/' _ (noRun_normalizeL_slash l),
    stripLeading_normalizeL, stripTrailing_normalizeL]

/-- C9: the sequence-normalization step of `prep_inputs` (lines 132-136) is
idempotent: for every raw sequence string `s`,
`normalize (normalize s) = normalize s`. -/
theorem normalizeSeq_idempotent (s : String) :
    normalizeSeq (normalizeSeq s) = normalizeSeq s := by
  unfold normalizeSeq
  exact congrArg String.mk (normalizeL_idem s.data)

end ColabFold

namespace ColabFold

/-! ## Claim C1: chain count vs multiplicity count after `prep_inputs` -/

theorem adjust_length (nseqs : Nat) (hs : List Nat) :
    (adjust nseqs hs).length = nseqs := by
  unfold adjust padOnes
  split_ifs with h1 h2
  · exact h1.symm
  · simp
  · simp only [List.length_take, List.length_append, List.length_replicate]
    omega

theorem adjust_broadcast (nseqs : Nat) (hs : List Nat) (h1 : hs.length = 1) :
    adjust nseqs hs = List.replicate nseqs (hs.headD 1) := by
  obtain ⟨a, rfl⟩ := List.length_eq_one.mp h1
  unfold adjust
  by_cases h2 : nseqs = [a].length
  · rw [if_pos h2]
    simp at h2
    subst h2
    rfl
  · rw [if_neg h2, if_pos (by simp)]

theorem adjust_padtrunc (nseqs : Nat) (hs : List Nat) (h1 : hs.length ≠ 1)
    (h2 : hs.length ≠ nseqs) :
    adjust nseqs hs = (padOnes hs nseqs).take nseqs := by
  unfold adjust
  rw [if_neg (fun hh => h2 hh.symm), if_neg h1]

/-- C1: whenever `prep_inputs` completes (the oligomer string parses), the
chain list and the multiplicity list it returns have equal length; a single
oligomer value is broadcast to every chain, and any other mismatch is
resolved by padding with 1 and truncating to the chain count (the warning at
line 159 is verbose-only and non-fatal). -/
theorem prep_inputs_chain_multiplicity (sequence homooligomer : String) (I : JobI)
    (h : prep_inputs sequence homooligomer = some I) :
    I.seqs.length = I.homooligomers.length
    ∧ (∀ hs, homooligomersOf homooligomer = some hs →
        (hs.length = 1 → I.homooligomers = List.replicate I.seqs.length (hs.headD 1))
        ∧ (hs.length ≠ 1 → hs.length ≠ I.seqs.length →
            I.homooligomers = (padOnes hs I.seqs.length).take I.seqs.length)) := by
  unfold prep_inputs at h
  cases hh : homooligomersOf homooligomer with
  | none =>
    rw [hh] at h
    exact absurd h (by simp)
  | some hs0 =>
    rw [hh] at h
    simp only [Option.some.injEq] at h
    subst h
    refine ⟨(adjust_length _ _).symm, ?_⟩
    intro hs hhs
    injection hhs with hhs
    subst hhs
    exact ⟨fun h1 => adjust_broadcast _ _ h1, fun h1 h2 => adjust_padtrunc _ _ h1 h2⟩

/-- Witness for C1 at the concrete input `("ACD:EF", "2")`: the single
oligomer value 2 is broadcast to both chains. -/
theorem prep_inputs_chain_multiplicity_witness :
    prep_inputs "ACD:EF" "2" = some Jw ∧ Jw.seqs.length = Jw.homooligomers.length := by
  refine ⟨by decide, ?_⟩
  exact (prep_inputs_chain_multiplicity "ACD:EF" "2" Jw (by decide)).1

end ColabFold

namespace ColabFold

/-! ## Claim C7: the oversized-length "warning" branch -/

/-- C7 (code bug): the oversized-length condition of `prep_inputs` is meant
to be a warning-only condition, but the branch of lines 178-180 interpolates
the undefined name `full_sequence`, so with `verbose=True` and a full
sequence longer than 1400 residues the call raises `NameError` instead of
warning and continuing; with `verbose=False`, or at 1400 residues, the
branch is not taken and the call continues. -/
theorem prep_inputs_length_warning_raises :
    prep_inputs_length_warning 1401 true =
      Except.error "NameError: name full_sequence is not defined"
    ∧ prep_inputs_length_warning 1401 false = Except.ok []
    ∧ prep_inputs_length_warning 1400 true = Except.ok [] :=
  ⟨rfl, rfl, rfl⟩

/-! ## Claim C5: the `run_jackhmmer` result cache -/

/-- C5 counterexample: a present-but-corrupt cache file does not fall
through to the fresh backend fetch — `pickle.load` at line 36 is unguarded,
so the call raises instead of returning either the fresh bundle or any
cached bundle. -/
theorem run_jackhmmer_cache_corrupt_raises :
    run_jackhmmer_cache (some none) BundleFresh = Except.error "UnpicklingError"
    ∧ run_jackhmmer_cache (some none) BundleFresh ≠ Except.ok BundleFresh := by
  refine ⟨rfl, ?_⟩
  intro hcontra
  exact Except.noConfusion hcontra

/-- C5 amended: when the cache file exists and deserializes, the call
short-circuits the network and returns the cached bundle; when the cache
file is missing, the call falls through to a fresh backend fetch.  (A
present-but-corrupt cache file instead raises, see the counterexample.) -/
theorem run_jackhmmer_cache_spec (cacheFile : Option (Option Bundle)) (fresh : Bundle) :
    (∀ b, cacheFile = some (some b) → run_jackhmmer_cache cacheFile fresh = Except.ok b)
    ∧ (cacheFile = none → run_jackhmmer_cache cacheFile fresh = Except.ok fresh) := by
  constructor
  · intro b hb
    subst hb
    rfl
  · intro hb
    subst hb
    rfl

/-- Witness for C5 at concrete cache states: a hit on `BundleW` and a miss
falling through to `BundleFresh`. -/
theorem run_jackhmmer_cache_spec_witness :
    run_jackhmmer_cache (some (some BundleW)) BundleFresh = Except.ok BundleW
    ∧ run_jackhmmer_cache none BundleFresh = Except.ok BundleFresh :=
  ⟨(run_jackhmmer_cache_spec (some (some BundleW)) BundleFresh).1 BundleW rfl,
   (run_jackhmmer_cache_spec none BundleFresh).2 rfl⟩

end ColabFold

namespace ColabFold

/-! ## Claim C6: `prep_filter` no-op identity and copy semantics -/

/-- C6: when no transform is requested (trim string normalizes to empty and
both thresholds are zero), `prep_filter` returns the original job object
itself (line 372, Python reference equality); and because any requested
transform works on the copy `mod_I = dict(I)` (line 352), a call that
requests only the coverage/identity filter leaves every field of the job
state other than `msas`/`deletion_matrices` exactly as in `I` — the original
is never mutated. -/
theorem prep_filter_frame (I : JobI) (trim : String) (trim_inverse : Bool)
    (cov qid : Nat)
    (tt : List Char → List (List (List Char)) → List (List (List Nat)) → List Char → Bool →
      TrimOut)
    (cq : List (List (List Char)) → List (List (List Nat)) → List Char → Nat → Nat →
      List (List (List Char)) × List (List (List Nat))) :
    (normalizeTrim trim = [] ∧ cov = 0 ∧ qid = 0 →
      prep_filter I trim trim_inverse cov qid tt cq = I)
    ∧ (normalizeTrim trim = [] →
        (prep_filter I trim trim_inverse cov qid tt cq).ori_sequence = I.ori_sequence
        ∧ (prep_filter I trim trim_inverse cov qid tt cq).sequence = I.sequence
        ∧ (prep_filter I trim trim_inverse cov qid tt cq).seqs = I.seqs
        ∧ (prep_filter I trim trim_inverse cov qid tt cq).homooligomer = I.homooligomer
        ∧ (prep_filter I trim trim_inverse cov qid tt cq).homooligomers = I.homooligomers
        ∧ (prep_filter I trim trim_inverse cov qid tt cq).full_sequence = I.full_sequence
        ∧ (prep_filter I trim trim_inverse cov qid tt cq).lengths = I.lengths
        ∧ (prep_filter I trim trim_inverse cov qid tt cq).chains = I.chains) := by
  constructor
  · rintro ⟨h1, h2, h3⟩
    subst h2
    subst h3
    unfold prep_filter
    rw [h1]
    simp
  · intro h1
    unfold prep_filter
    rw [h1]
    by_cases hcq : 0 < cov ∨ 0 < qid
    · simp [hcq]
    · simp [hcq]

/-- Witness for C6: with empty trim and zero thresholds, concrete tools and
the concrete job state `Iw`, the call returns `Iw` unchanged. -/
theorem prep_filter_frame_witness :
    normalizeTrim "" = [] ∧
    prep_filter Iw "" false 0 0 (fun _ m d o _ => ⟨m, d, o, []⟩) (fun m d _ _ _ => (m, d)) = Iw := by
  refine ⟨rfl, ?_⟩
  exact (prep_filter_frame Iw "" false 0 0 _ _).1 ⟨rfl, rfl, rfl⟩

/-! ## Claim C10: `prep_msa` resets the MSA collection -/

/-- C10: `prep_msa` clears `I["msas"]` and `I["deletion_matrices"]` before
building any track (lines 192-193), so its result is identical whatever MSA
collection the incoming job state carries — tracks never accumulate across
successive `prep_msa` calls on the same job state. -/
theorem prep_msa_resets_collections (I : JobI) (m : List (List (List Char)))
    (d : List (List (List Nat))) (msa_method : MsaMethod) (add_custom_msa : Bool)
    (pair_mode : PairMode) (o : MsaOracle) :
    prep_msa { I with msas := m, deletion_matrices := d } msa_method add_custom_msa pair_mode o
      = prep_msa I msa_method add_custom_msa pair_mode o := by
  cases I
  rfl

end ColabFold

namespace ColabFold

/-! ## Claim C8: query-first and uniform-width track invariants -/

theorem getD_map_of_lt {β γ : Type} (f : β → γ) (d : β) :
    ∀ (l : List β) (i : Nat), i < l.length → (l.map f).getD i (f d) = f (l.getD i d) := by
  intro l
  induction l with
  | nil => intro i hi; simp at hi
  | cons a t ih =>
    intro i hi
    cases i with
    | zero => rfl
    | succ j =>
      simp only [List.map_cons, List.getD_cons_succ]
      exact ih j (by simpa using hi)

theorem getD_set_ne {β : Type} (v d : β) :
    ∀ (l : List β) (i j : Nat), i ≠ j → (l.set i v).getD j d = l.getD j d := by
  intro l
  induction l with
  | nil => intro i j _; simp [List.set]
  | cons a t ih =>
    intro i j hij
    cases i with
    | zero =>
      cases j with
      | zero => exact absurd rfl hij
      | succ k => simp [List.set]
    | succ i' =>
      cases j with
      | zero => simp [List.set]
      | succ k =>
        simp only [List.set, List.getD_cons_succ]
        exact ih i' k (fun hh => hij (by rw [hh]))

theorem flatten_length_set {β : Type} :
    ∀ (l : List (List β)) (i : Nat) (v : List β),
      v.length = (l.getD i []).length →
      ((l.set i v).flatten).length = l.flatten.length := by
  intro l
  induction l with
  | nil => intro i v _; simp [List.set]
  | cons x t ih =>
    intro i v hv
    cases i with
    | zero =>
      simp only [List.set, List.flatten_cons, List.length_append]
      rw [show (((x :: t).getD 0 []) : List β) = x from rfl] at hv
      rw [hv]
    | succ j =>
      simp only [List.set, List.flatten_cons, List.length_append]
      rw [ih j v (by simpa using hv)]

theorem blank_seq_getD {lengths : List Nat} {n : Nat} (hn : n < lengths.length) :
    (blank_seq lengths).getD n [] = List.replicate (lengths.getD n 0) '-' := by
  unfold blank_seq
  rw [show ([] : List Char) = List.replicate 0 '-' from rfl]
  exact getD_map_of_lt (fun L => List.replicate L '-') 0 lengths n hn

theorem blank_mtx_getD {lengths : List Nat} {n : Nat} (hn : n < lengths.length) :
    (blank_mtx lengths).getD n [] = List.replicate (lengths.getD n 0) 0 := by
  unfold blank_mtx
  rw [show ([] : List Nat) = List.replicate 0 0 from rfl]
  exact getD_map_of_lt (fun L => List.replicate L 0) 0 lengths n hn

theorem blank_seq_flatten_length (lengths : List Nat) :
    (blank_seq lengths).flatten.length = lengths.sum := by
  rw [List.length_flatten]
  unfold blank_seq
  rw [List.map_map]
  simp [Function.comp_def]

theorem blank_mtx_flatten_length (lengths : List Nat) :
    (blank_mtx lengths).flatten.length = lengths.sum := by
  rw [List.length_flatten]
  unfold blank_mtx
  rw [List.map_map]
  simp [Function.comp_def]

theorem pad_seq_one_length {lengths : List Nat} {n : Nat} {v : List Char}
    (hn : n < lengths.length) (hv : v.length = lengths.getD n 0) :
    (pad_seq_one lengths n v).length = lengths.sum := by
  unfold pad_seq_one
  rw [flatten_length_set (blank_seq lengths) n v
    (by rw [blank_seq_getD hn, List.length_replicate]; exact hv)]
  exact blank_seq_flatten_length lengths

theorem pad_mtx_one_length {lengths : List Nat} {n : Nat} {v : List Nat}
    (hn : n < lengths.length) (hv : v.length = lengths.getD n 0) :
    (pad_mtx_one lengths n v).length = lengths.sum := by
  unfold pad_mtx_one
  rw [flatten_length_set (blank_mtx lengths) n v
    (by rw [blank_mtx_getD hn, List.length_replicate]; exact hv)]
  exact blank_mtx_flatten_length lengths

theorem pad_seq_two_length {lengths : List Nat} {a b : Nat} {va vb : List Char}
    (ha : a < lengths.length) (hb : b < lengths.length) (hab : a ≠ b)
    (hva : va.length = lengths.getD a 0) (hvb : vb.length = lengths.getD b 0) :
    (pad_seq_two lengths a b va vb).length = lengths.sum := by
  unfold pad_seq_two
  rw [flatten_length_set ((blank_seq lengths).set a va) b vb
    (by rw [getD_set_ne va [] (blank_seq lengths) a b hab, blank_seq_getD hb,
      List.length_replicate]; exact hvb)]
  rw [flatten_length_set (blank_seq lengths) a va
    (by rw [blank_seq_getD ha, List.length_replicate]; exact hva)]
  exact blank_seq_flatten_length lengths

theorem pad_mtx_two_length {lengths : List Nat} {a b : Nat} {va vb : List Nat}
    (ha : a < lengths.length) (hb : b < lengths.length) (hab : a ≠ b)
    (hva : va.length = lengths.getD a 0) (hvb : vb.length = lengths.getD b 0) :
    (pad_mtx_two lengths a b va vb).length = lengths.sum := by
  unfold pad_mtx_two
  rw [flatten_length_set ((blank_mtx lengths).set a va) b vb
    (by rw [getD_set_ne va [] (blank_mtx lengths) a b hab, blank_mtx_getD hb,
      List.length_replicate]; exact hvb)]
  rw [flatten_length_set (blank_mtx lengths) a va
    (by rw [blank_mtx_getD ha, List.length_replicate]; exact hva)]
  exact blank_mtx_flatten_length lengths

theorem seqs_flatten_length (seqs : List (List Char)) :
    (seqs.map List.length).sum = seqs.flatten.length := by
  rw [List.length_flatten]

end ColabFold

namespace ColabFold

/-- C8: for the tracks `prep_msa` appends — the unpaired padded tracks
(lines 263-271) and the paired stitched tracks (lines 331-337) — row 0 of
the MSA track is the query sequence itself, row 0 of the deletion track is
all-zero, and every row has the same length as the query row.  The job state
supplies `sequence` as the concatenation of the chains and `lengths` as
their lengths (as `prep_inputs` constructs them); the backend/stitch rows
are assumed chain-width, the external parsers' contract recorded in the
spec's AlignmentSet invariant. -/
theorem prep_msa_track_invariants
    (seqs : List (List Char)) (n a b : Nat)
    (rows1 : List (List Char × List Nat)) (rows2 : List StitchRow)
    (hn : n < seqs.length) (ha : a < seqs.length) (hb : b < seqs.length) (hab : a ≠ b)
    (hr1 : ∀ r ∈ rows1,
      r.1.length = (seqs.map List.length).getD n 0
      ∧ r.2.length = (seqs.map List.length).getD n 0)
    (hr2 : ∀ r ∈ rows2,
      r.1.1.length = (seqs.map List.length).getD a 0
      ∧ r.1.2.length = (seqs.map List.length).getD b 0
      ∧ r.2.1.length = (seqs.map List.length).getD a 0
      ∧ r.2.2.length = (seqs.map List.length).getD b 0) :
    (buildUnpairedTrack seqs.flatten (seqs.map List.length) n rows1).1.head?
        = some seqs.flatten
    ∧ (buildUnpairedTrack seqs.flatten (seqs.map List.length) n rows1).2.head?
        = some (List.replicate seqs.flatten.length 0)
    ∧ (∀ row ∈ (buildUnpairedTrack seqs.flatten (seqs.map List.length) n rows1).1,
        row.length = seqs.flatten.length)
    ∧ (∀ row ∈ (buildUnpairedTrack seqs.flatten (seqs.map List.length) n rows1).2,
        row.length = seqs.flatten.length)
    ∧ (buildPairedTrack seqs.flatten (seqs.map List.length) a b rows2).1.head?
        = some seqs.flatten
    ∧ (buildPairedTrack seqs.flatten (seqs.map List.length) a b rows2).2.head?
        = some (List.replicate seqs.flatten.length 0)
    ∧ (∀ row ∈ (buildPairedTrack seqs.flatten (seqs.map List.length) a b rows2).1,
        row.length = seqs.flatten.length)
    ∧ (∀ row ∈ (buildPairedTrack seqs.flatten (seqs.map List.length) a b rows2).2,
        row.length = seqs.flatten.length) := by
  have hlen : (seqs.map List.length).length = seqs.length := List.length_map _ _
  have hsum : (seqs.map List.length).sum = seqs.flatten.length := seqs_flatten_length seqs
  refine ⟨rfl, rfl, ?_, ?_, rfl, rfl, ?_, ?_⟩
  · intro row hrow
    rcases List.mem_cons.mp hrow with hq | hmem
    · rw [hq]
    · obtain ⟨r, hr, hrEq⟩ := List.mem_map.mp hmem
      rw [← hrEq, ← hsum]
      exact pad_seq_one_length (by rw [hlen]; exact hn) (hr1 r hr).1
  · intro row hrow
    rcases List.mem_cons.mp hrow with hq | hmem
    · rw [hq, List.length_replicate]
    · obtain ⟨r, hr, hrEq⟩ := List.mem_map.mp hmem
      rw [← hrEq, ← hsum]
      exact pad_mtx_one_length (by rw [hlen]; exact hn) (hr1 r hr).2
  · intro row hrow
    rcases List.mem_cons.mp hrow with hq | hmem
    · rw [hq]
    · obtain ⟨r, hr, hrEq⟩ := List.mem_map.mp hmem
      rw [← hrEq, ← hsum]
      exact pad_seq_two_length (by rw [hlen]; exact ha) (by rw [hlen]; exact hb) hab
        (hr2 r hr).1 (hr2 r hr).2.1
  · intro row hrow
    rcases List.mem_cons.mp hrow with hq | hmem
    · rw [hq, List.length_replicate]
    · obtain ⟨r, hr, hrEq⟩ := List.mem_map.mp hmem
      rw [← hrEq, ← hsum]
      exact pad_mtx_two_length (by rw [hlen]; exact ha) (by rw [hlen]; exact hb) hab
        (hr2 r hr).2.2.1 (hr2 r hr).2.2.2

/-- Witness for C8 on the two-chain job `[["A"], ["BC"]]` with one unpaired
backend row for chain 0 and one stitched row for the pair (0, 1). -/
theorem prep_msa_track_invariants_witness :
    (0 : Nat) < ([['A'], ['B', 'C']] : List (List Char)).length
    ∧ (∀ r ∈ ([(['X'], [1])] : List (List Char × List Nat)),
        r.1.length = (([['A'], ['B', 'C']] : List (List Char)).map List.length).getD 0 0
        ∧ r.2.length = (([['A'], ['B', 'C']] : List (List Char)).map List.length).getD 0 0)
    ∧ (buildUnpairedTrack ([['A'], ['B', 'C']] : List (List Char)).flatten
        (([['A'], ['B', 'C']] : List (List Char)).map List.length) 0 [(['X'], [1])]).1.head?
        = some ([['A'], ['B', 'C']] : List (List Char)).flatten
    ∧ (∀ row ∈ (buildUnpairedTrack ([['A'], ['B', 'C']] : List (List Char)).flatten
        (([['A'], ['B', 'C']] : List (List Char)).map List.length) 0 [(['X'], [1])]).1,
        row.length = ([['A'], ['B', 'C']] : List (List Char)).flatten.length)
    ∧ (buildPairedTrack ([['A'], ['B', 'C']] : List (List Char)).flatten
        (([['A'], ['B', 'C']] : List (List Char)).map List.length) 0 1
        [((['X'], ['Y', 'Z']), ([9], [8, 7]))]).1.head?
        = some ([['A'], ['B', 'C']] : List (List Char)).flatten
    ∧ (∀ row ∈ (buildPairedTrack ([['A'], ['B', 'C']] : List (List Char)).flatten
        (([['A'], ['B', 'C']] : List (List Char)).map List.length) 0 1
        [((['X'], ['Y', 'Z']), ([9], [8, 7]))]).1,
        row.length = ([['A'], ['B', 'C']] : List (List Char)).flatten.length) := by
  have hmain := prep_msa_track_invariants [['A'], ['B', 'C']] 0 0 1
    [(['X'], [1])] [((['X'], ['Y', 'Z']), ([9], [8, 7]))]
    (by decide) (by decide) (by decide) (by decide) (by decide) (by decide)
  exact ⟨by decide, by decide, hmain.1, hmain.2.2.1, hmain.2.2.2.2.1, hmain.2.2.2.2.2.2.1⟩

end ColabFold

namespace ColabFold

/-! ## Claim C2: the 90%-identity redundancy filter is diagnostic only -/

/-- C2: in the pairing step (lines 318-337) the hhfilter survivor indices
`ok` are used only for the diagnostic count printed at line 329: the
appended stitched track is identical for every possible filter result, and
when any stitched row exists the track consists of the query row followed by
every stitched row (not just the survivors), row `i` of the stitch appearing
padded at track position `i + 1`. -/
theorem msa_pairing_filter_diagnostic_only
    (sequence : List Char) (lengths : List Nat) (a b : Nat) (rows : List StitchRow)
    (f g : List (List Char) → List Nat) :
    (stitchTracks sequence lengths a b rows f).1 = (stitchTracks sequence lengths a b rows g).1
    ∧ (stitchTracks sequence lengths a b rows f).2
        = (f (rows.map (fun r => r.1.1 ++ r.1.2))).length
    ∧ (rows ≠ [] →
        (stitchTracks sequence lengths a b rows f).1
          = some (buildPairedTrack sequence lengths a b rows)
        ∧ (buildPairedTrack sequence lengths a b rows).1.length = rows.length + 1
        ∧ (buildPairedTrack sequence lengths a b rows).2.length = rows.length + 1
        ∧ ∀ i, i < rows.length →
            (buildPairedTrack sequence lengths a b rows).1.getD (i + 1) []
              = pad_seq_two lengths a b (rows.getD i default).1.1 (rows.getD i default).1.2) := by
  refine ⟨rfl, rfl, ?_⟩
  intro hrows
  have hpos : 0 < rows.length := List.length_pos.mpr hrows
  refine ⟨?_, ?_, ?_, ?_⟩
  · unfold stitchTracks
    simp [hpos]
  · simp [buildPairedTrack]
  · simp [buildPairedTrack]
  · intro i hi
    unfold buildPairedTrack
    rw [show ((sequence :: rows.map (fun r => pad_seq_two lengths a b r.1.1 r.1.2),
        List.replicate sequence.length 0 ::
          rows.map (fun r => pad_mtx_two lengths a b r.2.1 r.2.2)).1)
      = sequence :: rows.map (fun r => pad_seq_two lengths a b r.1.1 r.1.2) from rfl]
    rw [List.getD_cons_succ]
    rw [List.getD_eq_getElem _ [] (by simpa using hi), List.getElem_map]
    rw [List.getD_eq_getElem _ default hi]

/-- Witness for C2: one stitched row for chains (0, 1) of the job `"AB"`;
two different filter oracles give the same appended track, which is the full
two-row track `[query, stitched row]`. -/
theorem msa_pairing_filter_diagnostic_only_witness :
    (([((['X'], ['Y']), ([1], [2]))] : List StitchRow) ≠ [])
    ∧ (stitchTracks ['A', 'B'] [1, 1] 0 1 [((['X'], ['Y']), ([1], [2]))] (fun _ => [])).1
        = (stitchTracks ['A', 'B'] [1, 1] 0 1 [((['X'], ['Y']), ([1], [2]))]
            (fun _ => [0, 1, 2])).1
    ∧ (stitchTracks ['A', 'B'] [1, 1] 0 1 [((['X'], ['Y']), ([1], [2]))] (fun _ => [])).1
        = some (buildPairedTrack ['A', 'B'] [1, 1] 0 1 [((['X'], ['Y']), ([1], [2]))]) := by
  have hmain := msa_pairing_filter_diagnostic_only ['A', 'B'] [1, 1] 0 1
    [((['X'], ['Y']), ([1], [2]))] (fun _ => []) (fun _ => [0, 1, 2])
  exact ⟨by decide, hmain.1, (hmain.2.2 (by decide)).1⟩

end ColabFold

namespace ColabFold

/-! ## Claim C3: per-database e-value sorting and mgnify truncation -/

/-- C3: whenever `run_jackhmmer`'s per-database assembly (lines 97-123)
produces a hit list, that list is sorted by ascending e-value; for every
database other than `mgnify` it is a permutation of all pooled hits (kept in
full), while for `mgnify` it has length `min 501 n` and is a least prefix:
the remaining hits can be appended to recover a permutation of the pool, and
every kept hit's e-value is at most every dropped hit's e-value — so 600
distinct hits yield exactly the 501 lowest, in ascending order. -/
theorem run_jackhmmer_db_sorted_truncated (db_name : String) (chunks : List (List Hit))
    (out : List Hit) (h : run_jackhmmer_db db_name chunks = some out) :
    List.Pairwise hitLE out
    ∧ (db_name ≠ "mgnify" → out.Perm (gatherChunks chunks))
    ∧ (db_name = "mgnify" →
        out.length = min mgnify_max_hits (gatherChunks chunks).length
        ∧ ∃ rest, (out ++ rest).Perm (gatherChunks chunks)
            ∧ ∀ x ∈ out, ∀ y ∈ rest, hitLE x y) := by
  unfold run_jackhmmer_db at h
  by_cases hne : gatherChunks chunks = []
  · rw [if_pos hne] at h
    exact absurd h (by simp)
  · rw [if_neg hne] at h
    injection h with h
    have hsorted : List.Sorted hitLE (List.insertionSort hitLE (gatherChunks chunks)) :=
      List.sorted_insertionSort hitLE (gatherChunks chunks)
    have hperm : (List.insertionSort hitLE (gatherChunks chunks)).Perm (gatherChunks chunks) :=
      List.perm_insertionSort hitLE (gatherChunks chunks)
    by_cases hdb : db_name = "mgnify"
    · rw [if_pos hdb] at h
      subst h
      refine ⟨hsorted.sublist (List.take_sublist _ _), fun hc => absurd hdb hc, fun _ => ?_⟩
      constructor
      · rw [List.length_take, hperm.length_eq]
      · refine ⟨(List.insertionSort hitLE (gatherChunks chunks)).drop mgnify_max_hits, ?_, ?_⟩
        · rw [List.take_append_drop]
          exact hperm
        · have hp : ((List.insertionSort hitLE (gatherChunks chunks)).take mgnify_max_hits ++
              (List.insertionSort hitLE (gatherChunks chunks)).drop mgnify_max_hits).Pairwise
              hitLE := by
            rw [List.take_append_drop]
            exact hsorted
          exact (List.pairwise_append.mp hp).2.2
    · rw [if_neg hdb] at h
      subst h
      exact ⟨hsorted, fun _ => hperm, fun hc => absurd hc hdb⟩

/-- Witness for C3: two mgnify chunks; the duplicate `query` hit of the
second chunk is dropped, and assembly yields the three remaining hits in
ascending e-value order. -/
theorem run_jackhmmer_db_sorted_truncated_witness :
    run_jackhmmer_db "mgnify"
        [[{ seq := ['A'], del := [0], name := "query", ev := 5 },
          { seq := ['C'], del := [0], name := "h1", ev := 3 }],
         [{ seq := ['G'], del := [0], name := "query", ev := 1 },
          { seq := ['T'], del := [0], name := "h2", ev := 2 }]]
      = some [{ seq := ['T'], del := [0], name := "h2", ev := 2 },
              { seq := ['C'], del := [0], name := "h1", ev := 3 },
              { seq := ['A'], del := [0], name := "query", ev := 5 }]
    ∧ List.Pairwise hitLE
        [{ seq := ['T'], del := [0], name := "h2", ev := 2 },
         { seq := ['C'], del := [0], name := "h1", ev := 3 },
         { seq := ['A'], del := [0], name := "query", ev := 5 }] := by
  have hmain := run_jackhmmer_db_sorted_truncated "mgnify"
    [[{ seq := ['A'], del := [0], name := "query", ev := 5 },
      { seq := ['C'], del := [0], name := "h1", ev := 3 }],
     [{ seq := ['G'], del := [0], name := "query", ev := 1 },
      { seq := ['T'], del := [0], name := "h2", ev := 2 }]]
    [{ seq := ['T'], del := [0], name := "h2", ev := 2 },
     { seq := ['C'], del := [0], name := "h1", ev := 3 },
     { seq := ['A'], del := [0], name := "query", ev := 5 }]
    (by decide)
  exact ⟨by decide, hmain.1⟩

end ColabFold
namespace ColabFold

/-! ## Claim C4: MSA subsampling budget -/

/-- C4 counterexample: with a sequence longer than `3*10^7` the computed
budget `int(3E7/L)` is `0`; one MSA row then exceeds the budget, and
`do_subsample_msa` returns an empty MSA — row 0 (the query) is *not*
retained, contradicting the claim as stated for every feature dict. -/
theorem do_subsample_msa_budget_zero_drops_query :
    30000000 / FeatsHuge.residue_index.length < FeatsHuge.msa.length
    ∧ FeatsHuge.msa ≠ []
    ∧ ([] : List Nat).Perm (List.range' 1 (FeatsHuge.msa.length - 1))
    ∧ (do_subsample_msa FeatsHuge []).msa = [] := by
  have hL : FeatsHuge.residue_index.length = 30000001 := by
    show (List.replicate 30000001 (0 : Nat)).length = 30000001
    rw [List.length_replicate]
  have hdiv : 30000000 / 30000001 = 0 := Nat.div_eq_of_lt (by norm_num)
  have hmsalen : FeatsHuge.msa.length = 1 := rfl
  refine ⟨?_, ?_, ?_, ?_⟩
  · rw [hL, hdiv, hmsalen]
    norm_num
  · show ([[7]] : List (List Nat)) ≠ []
    simp
  · rw [hmsalen]
    decide
  · simp only [do_subsample_msa, hL, hdiv, hmsalen]
    rw [if_pos (by norm_num : (0 : Nat) < 1)]
    rfl

/-- C4 amended: assuming a positive budget `N' = 3*10^7 / L` (equivalently
`0 < L ≤ 3*10^7`; `L = 0` raises `ZeroDivisionError` in Python) and that
`perm` is the seed's permutation of rows `1..N-1`: when the row count `N`
exceeds the budget, the result has exactly `N'` MSA rows and `N'` deletion
rows, row 0 (the query) is retained, and `num_alignments` keeps its shape
with every entry set to `N'` — for every seed, so the output never exceeds
the budget; when `N` does not exceed the budget the feature dict is returned
unchanged. -/
theorem do_subsample_msa_spec (F : Feats) (perm : List Nat)
    (hbudget : 0 < 30000000 / F.residue_index.length)
    (hperm : perm.Perm (List.range' 1 (F.msa.length - 1))) :
    (30000000 / F.residue_index.length < F.msa.length →
      (do_subsample_msa F perm).msa.length = 30000000 / F.residue_index.length
      ∧ (do_subsample_msa F perm).deletion_matrix_int.length
          = 30000000 / F.residue_index.length
      ∧ (do_subsample_msa F perm).msa.head? = F.msa.head?
      ∧ (do_subsample_msa F perm).num_alignments.length = F.num_alignments.length
      ∧ ∀ x ∈ (do_subsample_msa F perm).num_alignments,
          x = 30000000 / F.residue_index.length)
    ∧ (¬ 30000000 / F.residue_index.length < F.msa.length →
        do_subsample_msa F perm = F) := by
  constructor
  · intro hlt
    have hplen : perm.length = F.msa.length - 1 := by
      rw [hperm.length_eq, List.length_range']
    have hN : 0 < F.msa.length := lt_trans hbudget hlt
    have hidx : (((0 : Nat) :: perm).take (30000000 / F.residue_index.length)).length
        = 30000000 / F.residue_index.length := by
      rw [List.length_take, List.length_cons, hplen]
      omega
    obtain ⟨k, hk⟩ : ∃ k, 30000000 / F.residue_index.length = k + 1 :=
      ⟨30000000 / F.residue_index.length - 1, by omega⟩
    simp only [do_subsample_msa, if_pos hlt]
    refine ⟨by rw [List.length_map, hidx], by rw [List.length_map, hidx], ?_, ?_, ?_⟩
    · rw [hk, List.take_succ_cons, List.map_cons, List.head?_cons]
      cases hmsa : F.msa with
      | nil => rw [hmsa] at hN; simp at hN
      | cons r t => simp [hmsa]
    · rw [List.length_map]
    · intro x hx
      obtain ⟨y, _, hy⟩ := List.mem_map.mp hx
      exact hy.symm
  · intro hnlt
    simp only [do_subsample_msa, if_neg hnlt]

/-- Witness for C4 (amended) at `FeatsW`: five rows over a length-`10^7`
sequence give budget 3, and the permutation `[2,4,3,1]` of rows 1-4
subsamples to exactly 3 rows with the query kept. -/
theorem do_subsample_msa_spec_witness :
    0 < 30000000 / FeatsW.residue_index.length
    ∧ ([2, 4, 3, 1] : List Nat).Perm (List.range' 1 (FeatsW.msa.length - 1))
    ∧ (30000000 / FeatsW.residue_index.length < FeatsW.msa.length →
        (do_subsample_msa FeatsW [2, 4, 3, 1]).msa.length
          = 30000000 / FeatsW.residue_index.length
        ∧ (do_subsample_msa FeatsW [2, 4, 3, 1]).deletion_matrix_int.length
            = 30000000 / FeatsW.residue_index.length
        ∧ (do_subsample_msa FeatsW [2, 4, 3, 1]).msa.head? = FeatsW.msa.head?
        ∧ (do_subsample_msa FeatsW [2, 4, 3, 1]).num_alignments.length
            = FeatsW.num_alignments.length
        ∧ ∀ x ∈ (do_subsample_msa FeatsW [2, 4, 3, 1]).num_alignments,
            x = 30000000 / FeatsW.residue_index.length) := by
  have hRW : FeatsW.residue_index = List.replicate 10000000 0 := rfl
  have hLen : FeatsW.residue_index.length = 10000000 := by
    rw [hRW, List.length_replicate]
  have hMlen : FeatsW.msa.length = 5 := rfl
  have h1 : 0 < 30000000 / FeatsW.residue_index.length := by
    rw [hLen]
    norm_num
  have h2 : ([2, 4, 3, 1] : List Nat).Perm (List.range' 1 (FeatsW.msa.length - 1)) := by
    rw [hMlen]
    decide
  exact ⟨h1, h2, (do_subsample_msa_spec FeatsW [2, 4, 3, 1] h1 h2).1⟩

end ColabFold
